import Mathlib

/-!
Shallow embedding of `main.go` of the google-proxy repository: a single-upstream
HTTP reverse proxy with a per-client-IP token-bucket rate limiter, proxy-header
stripping, a reusable byte-buffer pool, a day-rotating log sink with
stdout fallback, and a bounded asynchronous access-log queue.

Modelling conventions:
* Go `float64` token counts and `time.Time`/`time.Duration` values are embedded
  as exact rationals (`ℚ`, seconds); the algorithms are arithmetic over these.
* Go maps are embedded as association lists with Go assignment/lookup semantics.
* `time.Now()` becomes an explicit `now : ℚ` argument threaded to each call.
* Mutexes serialise the code being modelled; the embedding is the sequential
  semantics those mutexes enforce.
-/

/-- Go-map lookup `m[k]` on an association list. -/
def assocFind {α : Type} (m : List (String × α)) (k : String) : Option α :=
  match m with
  | [] => none
  | (k', v) :: rest => if k' = k then some v else assocFind rest k

/-- Go-map assignment `m[k] = v` on an association list: replace in place if the
key exists, otherwise append a new entry. -/
def assocSet {α : Type} (m : List (String × α)) (k : String) (v : α) : List (String × α) :=
  match m with
  | [] => [(k, v)]
  | (k', v') :: rest => if k' = k then (k, v) :: rest else (k', v') :: assocSet rest k v

/-- `bucket` from main.go: per-IP token-bucket state.  `tokens` is the current
token count (Go `float64`), `last` the timestamp of the last refill (seconds). -/
structure bucket where
  tokens : ℚ
  last : ℚ
deriving Repr, DecidableEq

/-- `ipRateLimiter` from main.go (the `mu sync.Mutex` field is the lock whose
sequential semantics this embedding is). -/
structure ipRateLimiter where
  limit : ℚ
  rate : ℚ
  buckets : List (String × bucket)
deriving Repr, DecidableEq

/-- `newIPRateLimiter(maxReq, window)` from main.go: non-positive windows are
replaced by 10 seconds; `rate = limit / window.Seconds()`. -/
def newIPRateLimiter (maxReq : ℤ) (window : ℚ) : ipRateLimiter :=
  let w : ℚ := if window ≤ 0 then 10 else window
  let limit : ℚ := (maxReq : ℚ)
  { limit := limit, rate := limit / w, buckets := [] }

/-- `(*ipRateLimiter).Allow(ip)` from main.go, with `time.Now()` passed in as
`now`.  Returns the admission boolean and the updated limiter.  A first-seen IP
gets a bucket at `limit - 1` tokens and is admitted; otherwise tokens are
refilled by `elapsed * rate` (clamped at `limit`) when time has passed, the call
is rejected without debit when fewer than 1 token remains, and otherwise exactly
one token is debited. -/
def ipRateLimiter.Allow (rl : ipRateLimiter) (now : ℚ) (ip : String) : Bool × ipRateLimiter :=
  match assocFind rl.buckets ip with
  | none =>
      (true, { rl with buckets := assocSet rl.buckets ip { tokens := rl.limit - 1, last := now } })
  | some b =>
      let elapsed := now - b.last
      let b1 : bucket :=
        if 0 < elapsed then
          let t := b.tokens + elapsed * rl.rate
          { tokens := if rl.limit < t then rl.limit else t, last := now }
        else b
      if b1.tokens < 1 then
        (false, { rl with buckets := assocSet rl.buckets ip b1 })
      else
        (true, { rl with buckets := assocSet rl.buckets ip { tokens := b1.tokens - 1, last := b1.last } })

/-- Run a sequence of `Allow` calls, each given as a `(now, ip)` pair, threading
the limiter state; returns the list of admission results and the final state. -/
def allowRun (rl : ipRateLimiter) (calls : List (ℚ × String)) : List Bool × ipRateLimiter :=
  match calls with
  | [] => ([], rl)
  | (t, ip) :: rest =>
      let out := rl.Allow t ip
      let outRest := allowRun out.2 rest
      (out.1 :: outRest.1, outRest.2)

/-- `defaultIPLimiter` from main.go: 300 requests per IP per 10 seconds. -/
def defaultIPLimiter : ipRateLimiter := newIPRateLimiter 300 (10 : ℚ)

/-! ### HTTP headers (net/http `Header`; canonical-cased keys assumed) -/

/-- An HTTP header map: canonical header name to list of values. -/
abbrev Headers := List (String × List String)

/-- `Header.Get`: the first value for the key, or `""` when the key is absent
or has no values (Go's textproto semantics). -/
def headerGet (h : Headers) (k : String) : String :=
  match assocFind h k with
  | some (v :: _) => v
  | _ => ""

/-- `Header.Set`: replace the key's values with the single given value. -/
def headerSet (h : Headers) (k v : String) : Headers := assocSet h k [v]

/-- `Header.Del`: remove the key. -/
def headerDel (h : Headers) (k : String) : Headers :=
  match h with
  | [] => []
  | (k', v) :: rest => if k' = k then headerDel rest k else (k', v) :: headerDel rest k

/-! ### The request forwarder's Director (main.go `newReverseProxy`) -/

/-- The outbound request state the Director rewrites: URL scheme/host, the
`Host` field, and the header map. -/
structure OutRequest where
  urlScheme : String
  urlHost : String
  host : String
  headers : Headers
deriving Repr, DecidableEq

/-- Scheme of the fixed upstream `https://translate.google.com`. -/
def targetScheme : String := "https"

/-- Host of the fixed upstream `https://translate.google.com`. -/
def targetHost : String := "translate.google.com"

/-- The header-relevant action of the stdlib single-host director that
`proxyRP.Director` wraps: point the URL at the target and pin a missing
User-Agent to the empty string (path/query joining is outside the claims'
scope and omitted). -/
def originalDirector (req : OutRequest) : OutRequest :=
  let req1 := { req with urlScheme := targetScheme, urlHost := targetHost }
  if (assocFind req1.headers "User-Agent").isNone then
    { req1 with headers := headerSet req1.headers "User-Agent" "" }
  else req1

/-- The fixed desktop-browser User-Agent from main.go. -/
def chromeUA : String :=
  "Mozilla/5.0 (Windows NT 10.0; Win64; x64) AppleWebKit/537.36 (KHTML, like Gecko) Chrome/124.0.0.0 Safari/537.36"

/-- The proxy-revealing headers deleted by the Director, in source order. -/
def strippedProxyHeaders : List String :=
  ["X-Real-IP", "X-Forwarded-For", "X-Forwarded-Host", "X-Forwarded-Proto",
   "Forwarded", "Via", "Proxy-Connection"]

/-- Default Accept-Language injected when the client sent none. -/
def defaultAcceptLanguage : String := "zh-CN,zh;q=0.9,en;q=0.8"

/-- Default Accept-Encoding injected when the client sent none. -/
def defaultAcceptEncoding : String := "gzip, deflate, br"

/-- `proxyRP.Director` from main.go: run the original director, force the
target scheme/host, delete the proxy-revealing headers, overwrite the
User-Agent, and inject default Accept-Language / Accept-Encoding when the
inbound request carries none. -/
def director (req : OutRequest) : OutRequest :=
  let req1 := originalDirector req
  let req2 := { req1 with urlScheme := targetScheme, urlHost := targetHost, host := targetHost }
  let req3 := { req2 with headers := strippedProxyHeaders.foldl headerDel req2.headers }
  let req4 := { req3 with headers := headerSet req3.headers "User-Agent" chromeUA }
  let req5 :=
    if headerGet req4.headers "Accept-Language" = "" then
      { req4 with headers := headerSet req4.headers "Accept-Language" defaultAcceptLanguage }
    else req4
  if headerGet req5.headers "Accept-Encoding" = "" then
    { req5 with headers := headerSet req5.headers "Accept-Encoding" defaultAcceptEncoding }
  else req5

/-! ### Client IP extraction (main.go `clientIP`) -/

/-- The inbound request as the middlewares see it. -/
structure HttpRequest where
  path : String
  headers : Headers
  remoteAddr : String
deriving Repr, DecidableEq

/-- Index of the last `':'` in a character list, if any. -/
def lastColonIdx : List Char → Option ℕ
  | [] => none
  | c :: rest =>
      match lastColonIdx rest with
      | some i => some (i + 1)
      | none => if c = ':' then some 0 else none

/-- `net.SplitHostPort`: split at the last colon; a bracketed `[host]:port`
yields the inner host; an unbracketed host containing a colon or a stray
bracket is an error. Errors are `none` (the caller only distinguishes success
from failure). -/
def splitHostPort (s : String) : Option (String × String) :=
  let cs := s.toList
  match lastColonIdx cs with
  | none => none
  | some i =>
      let hostCs := cs.take i
      let port := String.mk (cs.drop (i + 1))
      if hostCs.head? = some '[' then
        if hostCs.getLast? = some ']' then
          let inner := (hostCs.drop 1).dropLast
          if inner.contains '[' ∨ inner.contains ']' then none
          else some (String.mk inner, port)
        else none
      else if hostCs.contains ':' ∨ hostCs.contains '[' ∨ hostCs.contains ']' then none
      else some (String.mk hostCs, port)

/-- `clientIP(r)` from main.go: the trimmed first comma-separated element of a
non-empty `X-Forwarded-For`, else a non-empty `X-Real-IP` trimmed, else the
host part of `RemoteAddr` (the whole `RemoteAddr` when it does not split). -/
def clientIP (r : HttpRequest) : String :=
  let xff := headerGet r.headers "X-Forwarded-For"
  if xff ≠ "" then
    ((xff.splitOn ",").headD "").trim
  else
    let xr := headerGet r.headers "X-Real-IP"
    if xr ≠ "" then xr.trim
    else
      match splitHostPort r.remoteAddr with
      | some hp => hp.1
      | none => r.remoteAddr

/-- The derivation described by C10, written from the claim's words (for
comparison with `clientIP` from the source): the trimmed first comma-separated
element of `X-Forwarded-For` when that header carries a non-empty value, else
the trimmed `X-Real-IP` when non-empty, else the host portion of the remote
address, or the whole remote address when it has no port. -/
def claimDerivedIP (r : HttpRequest) : String :=
  if headerGet r.headers "X-Forwarded-For" ≠ "" then
    (((headerGet r.headers "X-Forwarded-For").splitOn ",").headD "").trim
  else if headerGet r.headers "X-Real-IP" ≠ "" then
    (headerGet r.headers "X-Real-IP").trim
  else ((splitHostPort r.remoteAddr).map Prod.fst).getD r.remoteAddr

/-! ### Outbound request preparation (net/http/httputil `ReverseProxy.ServeHTTP`)

The transport does not send the Director's output as-is: in Director mode,
`ReverseProxy.ServeHTTP` continues after the Director with `upgradeType`,
`removeHopByHopHeaders`, the `Te: trailers` and upgrade restorations, and the
`X-Forwarded-For` injection. `serveHTTPOutbound` models that full pipeline:
its output is the request the transport actually sends upstream. -/

/-- `strings.Split(f, ",")` over the character list: at least one (possibly
empty) part, empty parts preserved. -/
def splitCommaAux : List Char → List (List Char)
  | [] => [[]]
  | c :: rest =>
      match splitCommaAux rest with
      | [] => [[]]
      | g :: gs => if c = ',' then [] :: g :: gs else (c :: g) :: gs

/-- `strings.Split(s, ",")`. -/
def splitComma (s : String) : List String :=
  (splitCommaAux s.toList).map String.mk

/-- `textproto.TrimString`: strip leading and trailing spaces and tabs. -/
def trimOWS (s : String) : String :=
  String.mk
    (((s.toList.dropWhile fun c => c == ' ' || c == '\t').reverse.dropWhile
        fun c => c == ' ' || c == '\t').reverse)

/-- ASCII lowercasing, as the token comparisons in httpguts perform. -/
def asciiLower (s : String) : String :=
  String.mk (s.toList.map Char.toLower)

/-- The characters valid in a header-field token (RFC 7230 `tchar`, Go's
`isTokenTable`); code points 39 and 96 are the apostrophe and the backquote. -/
def isTokenChar (c : Char) : Bool :=
  c.isAlphanum || ['!', '#', '$', '%', '&', '*', '+', '-', '.', '^', '_', '|', '~'].contains c
    || c == Char.ofNat 39 || c == Char.ofNat 96

/-- Case normalisation of `textproto.CanonicalMIMEHeaderKey`: uppercase at the
start and after each hyphen, lowercase elsewhere. -/
def canonAux : Bool → List Char → List Char
  | _, [] => []
  | upper, c :: rest =>
      (if upper then c.toUpper else c.toLower) :: canonAux (c == '-') rest

/-- `textproto.CanonicalMIMEHeaderKey` (as `Header.Del` applies to its
argument): canonicalise the case of a valid token, return anything else
unchanged. -/
def canonicalHeaderKey (s : String) : String :=
  if s.toList.all isTokenChar then String.mk (canonAux true s.toList) else s

/-- `httpguts.HeaderValuesContainsToken(vs, token)` for a lowercase `token`:
some comma-separated, OWS-trimmed element of some value matches it
ASCII-case-insensitively. -/
def headerValuesContainToken (vs : List String) (token : String) : Bool :=
  vs.any fun f => (splitComma f).any fun sf => asciiLower (trimOWS sf) == token

/-- The nine hop-by-hop headers `removeHopByHopHeaders` always deletes. -/
def hopHeaders : List String :=
  ["Connection", "Proxy-Connection", "Keep-Alive", "Proxy-Authenticate",
   "Proxy-Authorization", "Te", "Trailer", "Transfer-Encoding", "Upgrade"]

/-- The header names listed in the `Connection` header: every comma-separated,
OWS-trimmed, non-empty token of every `Connection` value (RFC 7230 §6.1). -/
def connectionTokens (h : Headers) : List String :=
  (((assocFind h "Connection").getD []).map fun f =>
    ((splitComma f).map trimOWS).filter fun sf => sf != "").flatten

/-- `removeHopByHopHeaders` from net/http/httputil: delete every header named
by a `Connection` token (canonicalised, as `Header.Del` does), then delete the
nine hop-by-hop headers. -/
def removeHopByHopHeaders (h : Headers) : Headers :=
  hopHeaders.foldl headerDel
    ((connectionTokens h).foldl (fun acc sf => headerDel acc (canonicalHeaderKey sf)) h)

/-- `upgradeType(h)`: the `Upgrade` header value when the `Connection` header
carries the token `Upgrade`, else the empty string. -/
def upgradeType (h : Headers) : String :=
  if headerValuesContainToken ((assocFind h "Connection").getD []) "upgrade" then
    headerGet h "Upgrade"
  else ""

/-- The outbound request `ReverseProxy.ServeHTTP` hands to the transport, for
an inbound request cloned into `req` that arrived from `remoteAddr`: run the
Director, remember the upgrade type, remove hop-by-hop headers, restore
`Te: trailers` (from the inbound request's own `Te`) and the upgrade headers
when applicable, and — whenever `remoteAddr` splits into host and port —
set `X-Forwarded-For` to the client IP, appending it to any values that
survived. A nil map entry, Go's only way to suppress that injection, is not
representable here and is never created by this program (its Director uses
`Del`, which removes the key). -/
def serveHTTPOutbound (remoteAddr : String) (req : OutRequest) : OutRequest :=
  let outreq := director req
  let reqUpType := upgradeType outreq.headers
  let h1 := removeHopByHopHeaders outreq.headers
  let h2 :=
    if headerValuesContainToken ((assocFind req.headers "Te").getD []) "trailers" then
      headerSet h1 "Te" "trailers"
    else h1
  let h3 :=
    if reqUpType ≠ "" then headerSet (headerSet h2 "Connection" "Upgrade") "Upgrade" reqUpType
    else h2
  let h4 :=
    match splitHostPort remoteAddr with
    | none => h3
    | some hp =>
        match assocFind h3 "X-Forwarded-For" with
        | none => headerSet h3 "X-Forwarded-For" hp.1
        | some prior =>
            if prior.isEmpty then headerSet h3 "X-Forwarded-For" hp.1
            else headerSet h3 "X-Forwarded-For" (String.intercalate ", " prior ++ ", " ++ hp.1)
  { outreq with headers := h4 }

/-! ### The served responses and middleware chain (main.go `main`) -/

/-- The observable response: status code, Content-Type, body. -/
structure HttpResponse where
  status : ℕ
  contentType : String
  body : String
deriving Repr, DecidableEq

/-- The `/healthz` handler's response, with `time.Now().Format(time.RFC3339)`
passed in as `nowRFC`. -/
def healthzResponse (nowRFC : String) : HttpResponse :=
  { status := 200, contentType := "text/plain; charset=utf-8", body := "ok " ++ nowRFC }

/-- The mux: `/healthz` is an exact-match pattern, everything else falls to the
`/` pattern, which forwards to the reverse proxy (whose response — upstream's,
or the 502 error response — is the parameter `proxyResp`). -/
def muxServe (nowRFC : String) (proxyResp : HttpResponse) (r : HttpRequest) : HttpResponse :=
  if r.path = "/healthz" then healthzResponse nowRFC else proxyResp

/-- The response written by `rateLimitMiddleware` on rejection. -/
def tooManyRequestsResponse : HttpResponse :=
  { status := 429, contentType := "text/plain; charset=utf-8", body := "Too Many Requests\n" }

/-- `rateLimitMiddleware`: admit through `Allow(clientIP(r))` or answer 429. -/
def rateLimitMiddleware (lim : ipRateLimiter) (now : ℚ) (r : HttpRequest)
    (inner : HttpResponse) : HttpResponse × ipRateLimiter :=
  let out := lim.Allow now (clientIP r)
  if out.1 then (inner, out.2) else (tooManyRequestsResponse, out.2)

/-- Capacity of the buffered access-log channel (`make(chan string, 10000)`). -/
def accessLogCapacity : ℕ := 10000

/-- Go `%q` quoting, simplified to escaping backslash and double quote (the
claims do not depend on the escaping of control characters). -/
def goQuote (s : String) : String :=
  "\"" ++ String.join (s.toList.map fun c =>
    if c = '"' then "\\\"" else if c = '\\' then "\\\\" else String.mk [c]) ++ "\""

/-- The access-log line `fmt.Sprintf("[INFO] access: ip=%s ua=%q", ip, ua)`. -/
def accessMsg (ip ua : String) : String :=
  "[INFO] access: ip=" ++ ip ++ " ua=" ++ goQuote ua

/-- The non-blocking `select`/`default` send on the bounded channel: append
when below capacity, silently drop otherwise. -/
def enqueueAccess (q : List String) (msg : String) : List String :=
  if q.length < accessLogCapacity then q ++ [msg] else q

/-- Server state threaded through one request: the limiter and the pending
access-log queue. -/
structure ServerState where
  limiter : ipRateLimiter
  accessQ : List String
deriving Repr, DecidableEq

/-- The full handler `loggingMiddleware(rateLimitMiddleware(mux))`: serve the
inner handler, then enqueue the access-log entry (never blocking). -/
def serveHTTP (st : ServerState) (now : ℚ) (nowRFC : String) (proxyResp : HttpResponse)
    (r : HttpRequest) : HttpResponse × ServerState :=
  let inner := rateLimitMiddleware st.limiter now r (muxServe nowRFC proxyResp r)
  let q := enqueueAccess st.accessQ (accessMsg (clientIP r) (headerGet r.headers "User-Agent"))
  (inner.1, { limiter := inner.2, accessQ := q })

/-! ### Buffer pool (main.go `byteBufferPool`) -/

/-- `byteBufferPool` over `sync.Pool`, modelled as the list of stored slices
(`Get` pops one or allocates afresh; `Put` pushes). A Go byte slice is its
list of bytes; a nil slice and an empty slice coincide in this model. -/
structure byteBufferPool where
  stored : List (List ℕ)
deriving Repr, DecidableEq

/-- `Get`: a pooled slice if one is stored, else `make([]byte, 32*1024)` (the
same allocation the pool's `New` performs). -/
def byteBufferPool.Get (p : byteBufferPool) : List ℕ × byteBufferPool :=
  match p.stored with
  | [] => (List.replicate (32 * 1024) 0, p)
  | b :: rest => (b, { stored := rest })

/-- `Put(b)`: stores `b[:0]`, the zero-length reslice of the buffer. -/
def byteBufferPool.Put (p : byteBufferPool) (b : List ℕ) : byteBufferPool :=
  { stored := b.take 0 :: p.stored }

/-! ### Day-rotating log sink (main.go `dailyFileWriter`) -/

/-- Outcome oracle for one `rotate` attempt: the error (if any) each
filesystem call would return, and the handle obtained when `OpenFile`
succeeds. -/
structure fsOutcome where
  mkdirErr : Option String
  openErr : Option String
  newHandle : ℕ
deriving Repr, DecidableEq

/-- `dailyFileWriter` from main.go (`pfx` is the Go struct's filename-prefix
field; the mutex is the lock whose sequential semantics this embedding is). -/
structure dailyFileWriter where
  dir : String
  pfx : String
  currentDate : String
  file : Option ℕ
deriving Repr, DecidableEq

/-- `newDailyFileWriter(dir, prefix)`. -/
def newDailyFileWriter (dir p : String) : dailyFileWriter :=
  { dir := dir, pfx := p, currentDate := "", file := none }

/-- The I/O a `Write` call performed: which sink received which bytes. -/
inductive writeDest where
  | file (handle : ℕ) (bytes : List ℕ)
  | stdout (bytes : List ℕ)
deriving Repr, DecidableEq

/-- `rotate(date)`: make the directory, open `{dir}/{prefix}-{date}.log` in
append mode, close the old handle, retain the new one; an error at either
filesystem call is returned and the writer state is unchanged. -/
def dailyFileWriter.rotate (w : dailyFileWriter) (date : String) (fs : fsOutcome) :
    Except String dailyFileWriter :=
  match fs.mkdirErr with
  | some e => Except.error e
  | none =>
      let filename := w.pfx ++ "-" ++ date ++ ".log"
      let _path := w.dir ++ "/" ++ filename
      match fs.openErr with
      | some e => Except.error e
      | none => Except.ok { w with file := some fs.newHandle, currentDate := date }

/-- `Write(p)` with the current date and the filesystem outcome passed
explicitly. Returns where the bytes went, the `(n, err)` result returned to
the caller, and the new writer state; `fileRes`/`stdoutRes` are the results
the file handle and stdout would return for this write. -/
def dailyFileWriter.Write (w : dailyFileWriter) (today : String) (p : List ℕ)
    (fs : fsOutcome) (fileRes stdoutRes : ℕ × Option String) :
    writeDest × (ℕ × Option String) × dailyFileWriter :=
  if w.file = none ∨ w.currentDate ≠ today then
    match w.rotate today fs with
    | Except.error _ => (writeDest.stdout p, stdoutRes, w)
    | Except.ok w2 => (writeDest.file (w2.file.getD 0) p, fileRes, w2)
  else (writeDest.file (w.file.getD 0) p, fileRes, w)


/-! ### Association-map lemmas -/

theorem assocFind_assocSet_self {α : Type} (m : List (String × α)) (k : String) (v : α) :
    assocFind (assocSet m k v) k = some v := by
  induction m with
  | nil => simp [assocSet, assocFind]
  | cons p rest ih =>
      obtain ⟨k', v'⟩ := p
      by_cases h : k' = k <;> simp [assocSet, assocFind, h, ih]

theorem assocFind_assocSet_ne {α : Type} (m : List (String × α)) (k k' : String) (v : α)
    (h : k' ≠ k) : assocFind (assocSet m k v) k' = assocFind m k' := by
  induction m with
  | nil => simp [assocSet, assocFind, Ne.symm h]
  | cons p rest ih =>
      obtain ⟨k₀, v₀⟩ := p
      by_cases h0 : k₀ = k
      · subst h0
        simp [assocSet, assocFind, Ne.symm h]
      · simp [assocSet, assocFind, h0, ih]

theorem mem_assocSet {α : Type} (m : List (String × α)) (k : String) (v : α)
    (p : String × α) (hp : p ∈ assocSet m k v) : p = (k, v) ∨ p ∈ m := by
  induction m with
  | nil => simpa [assocSet] using hp
  | cons q rest ih =>
      obtain ⟨k₀, v₀⟩ := q
      by_cases h0 : k₀ = k
      · have hp2 : p = (k, v) ∨ p ∈ rest := by
          simp only [assocSet, if_pos h0, List.mem_cons] at hp
          exact hp
        exact hp2.imp id (List.mem_cons_of_mem _)
      · have hp2 : p = (k₀, v₀) ∨ p ∈ assocSet rest k v := by
          simp only [assocSet, if_neg h0, List.mem_cons] at hp
          exact hp
        rcases hp2 with h1 | h1
        · exact Or.inr (by simp [h1])
        · exact (ih h1).imp id (List.mem_cons_of_mem _)

theorem assocFind_mem {α : Type} (m : List (String × α)) (k : String) (v : α)
    (h : assocFind m k = some v) : (k, v) ∈ m := by
  induction m with
  | nil => simp [assocFind] at h
  | cons q rest ih =>
      obtain ⟨k₀, v₀⟩ := q
      by_cases h0 : k₀ = k
      · simp only [assocFind, if_pos h0] at h
        obtain rfl : v₀ = v := Option.some.inj h
        rw [← h0]
        exact List.mem_cons_self _ _
      · simp only [assocFind, if_neg h0] at h
        exact List.mem_cons_of_mem _ (ih h)

theorem Allow_limit_eq (rl : ipRateLimiter) (t : ℚ) (ip : String) :
    ((rl.Allow t ip).2).limit = rl.limit := by
  unfold ipRateLimiter.Allow
  cases assocFind rl.buckets ip
  · rfl
  · dsimp only
    repeat' split
    all_goals rfl

theorem Allow_rate_eq (rl : ipRateLimiter) (t : ℚ) (ip : String) :
    ((rl.Allow t ip).2).rate = rl.rate := by
  unfold ipRateLimiter.Allow
  cases assocFind rl.buckets ip
  · rfl
  · dsimp only
    repeat' split
    all_goals rfl

theorem allowRun_limit_eq (calls : List (ℚ × String)) (rl : ipRateLimiter) :
    ((allowRun rl calls).2).limit = rl.limit := by
  induction calls generalizing rl with
  | nil => rfl
  | cons c rest ih =>
      obtain ⟨t, ip⟩ := c
      simpa [allowRun, ih] using Allow_limit_eq rl t ip

theorem allowRun_rate_eq (calls : List (ℚ × String)) (rl : ipRateLimiter) :
    ((allowRun rl calls).2).rate = rl.rate := by
  induction calls generalizing rl with
  | nil => rfl
  | cons c rest ih =>
      obtain ⟨t, ip⟩ := c
      simpa [allowRun, ih] using Allow_rate_eq rl t ip

theorem allowRun_append (rl : ipRateLimiter) (l1 l2 : List (ℚ × String)) :
    allowRun rl (l1 ++ l2) =
      ((allowRun rl l1).1 ++ (allowRun (allowRun rl l1).2 l2).1,
       (allowRun (allowRun rl l1).2 l2).2) := by
  induction l1 generalizing rl with
  | nil => simp [allowRun]
  | cons c rest ih =>
      obtain ⟨t, ip⟩ := c
      simp [allowRun, ih]

/-- The joint bucket invariant: every bucket in the limiter's map holds between
`0` and `limit` tokens. -/
def bucketsInv (rl : ipRateLimiter) : Prop :=
  ∀ p ∈ rl.buckets, 0 ≤ p.2.tokens ∧ p.2.tokens ≤ rl.limit

theorem inv_assocSet (L : ℚ) (m : List (String × bucket)) (k : String) (v : bucket)
    (hm : ∀ p ∈ m, 0 ≤ p.2.tokens ∧ p.2.tokens ≤ L)
    (hv : 0 ≤ v.tokens ∧ v.tokens ≤ L) :
    ∀ p ∈ assocSet m k v, 0 ≤ p.2.tokens ∧ p.2.tokens ≤ L := by
  intro p hp
  rcases mem_assocSet m k v p hp with rfl | h
  · exact hv
  · exact hm p h

theorem Allow_bucketsInv (rl : ipRateLimiter) (t : ℚ) (ip : String)
    (hlim : 1 ≤ rl.limit) (hrate : 0 ≤ rl.rate) (hinv : bucketsInv rl) :
    bucketsInv (rl.Allow t ip).2 := by
  have hLeq := Allow_limit_eq rl t ip
  unfold bucketsInv at hinv ⊢
  rw [hLeq]
  unfold ipRateLimiter.Allow
  cases hfind : assocFind rl.buckets ip with
  | none =>
      dsimp only
      exact inv_assocSet rl.limit _ _ _ hinv ⟨by dsimp only; linarith, by dsimp only; linarith⟩
  | some b =>
      have hb := hinv _ (assocFind_mem _ _ _ hfind)
      dsimp only at hb ⊢
      by_cases he : 0 < t - b.last
      · have hmul : 0 ≤ (t - b.last) * rl.rate := mul_nonneg he.le hrate
        by_cases hcl : rl.limit < b.tokens + (t - b.last) * rl.rate
        · simp only [if_pos he, if_pos hcl]
          by_cases h1 : rl.limit < 1
          · exact absurd h1 (by linarith)
          · simp only [if_neg h1]
            exact inv_assocSet rl.limit _ _ _ hinv ⟨by dsimp only; linarith, by dsimp only; linarith⟩
        · simp only [if_pos he, if_neg hcl]
          push_neg at hcl
          by_cases h1 : b.tokens + (t - b.last) * rl.rate < 1
          · simp only [if_pos h1]
            exact inv_assocSet rl.limit _ _ _ hinv ⟨by dsimp only; linarith [hb.1], by dsimp only; linarith⟩
          · simp only [if_neg h1]
            push_neg at h1
            exact inv_assocSet rl.limit _ _ _ hinv ⟨by dsimp only; linarith, by dsimp only; linarith⟩
      · simp only [if_neg he]
        by_cases h1 : b.tokens < 1
        · simp only [if_pos h1]
          exact inv_assocSet rl.limit _ _ _ hinv ⟨hb.1, hb.2⟩
        · simp only [if_neg h1]
          push_neg at h1
          exact inv_assocSet rl.limit _ _ _ hinv ⟨by dsimp only; linarith, by dsimp only; linarith [hb.2]⟩

theorem allowRun_bucketsInv (calls : List (ℚ × String)) (rl : ipRateLimiter)
    (hlim : 1 ≤ rl.limit) (hrate : 0 ≤ rl.rate) (hinv : bucketsInv rl) :
    bucketsInv (allowRun rl calls).2 := by
  induction calls generalizing rl with
  | nil => exact hinv
  | cons c rest ih =>
      obtain ⟨t, ip⟩ := c
      show bucketsInv (allowRun (rl.Allow t ip).2 rest).2
      exact ih (rl.Allow t ip).2 (by rw [Allow_limit_eq]; exact hlim)
        (by rw [Allow_rate_eq]; exact hrate) (Allow_bucketsInv rl t ip hlim hrate hinv)

theorem newIPRateLimiter_limit (maxReq : ℤ) (window : ℚ) :
    (newIPRateLimiter maxReq window).limit = (maxReq : ℚ) := rfl

theorem newIPRateLimiter_rate_nonneg (maxReq : ℤ) (window : ℚ) (h : 0 ≤ maxReq) :
    0 ≤ (newIPRateLimiter maxReq window).rate := by
  unfold newIPRateLimiter
  dsimp only
  apply div_nonneg
  · exact_mod_cast h
  · by_cases hw : window ≤ 0
    · simp [hw]
    · simp only [hw, if_false]
      linarith

theorem Allow_step_admit (rl : ipRateLimiter) (t : ℚ) (ip : String) (b : bucket)
    (hrate : 0 ≤ rl.rate)
    (hfind : assocFind rl.buckets ip = some b)
    (h1 : 1 ≤ b.tokens) (hhi : b.tokens ≤ rl.limit) :
    ∃ tok1 l1 : ℚ, b.tokens ≤ tok1 ∧ tok1 ≤ rl.limit ∧
      rl.Allow t ip =
        (true, { rl with buckets := assocSet rl.buckets ip { tokens := tok1 - 1, last := l1 } }) := by
  unfold ipRateLimiter.Allow
  rw [hfind]
  dsimp only
  by_cases he : 0 < t - b.last
  · by_cases hcl : rl.limit < b.tokens + (t - b.last) * rl.rate
    · refine ⟨rl.limit, t, by linarith, le_refl _, ?_⟩
      simp only [if_pos he, if_pos hcl]
      rw [if_neg (show ¬({ tokens := rl.limit, last := t } : bucket).tokens < 1 by
        show ¬(rl.limit < 1); linarith)]
    · push_neg at hcl
      have hmul : 0 ≤ (t - b.last) * rl.rate := mul_nonneg he.le hrate
      refine ⟨b.tokens + (t - b.last) * rl.rate, t, by linarith, hcl, ?_⟩
      simp only [if_pos he, if_neg (not_lt.mpr hcl)]
      rw [if_neg (show ¬({ tokens := b.tokens + (t - b.last) * rl.rate, last := t } : bucket).tokens < 1 by
        show ¬(b.tokens + (t - b.last) * rl.rate < 1); linarith)]
  · refine ⟨b.tokens, b.last, le_refl _, hhi, ?_⟩
    simp only [if_neg he]
    rw [if_neg (by linarith)]

theorem allowRun_single_ip_admits (ts : List ℚ) (rl : ipRateLimiter) (ip : String)
    (b : bucket) (c : ℚ)
    (hrate : 0 ≤ rl.rate) (hc0 : 0 ≤ c)
    (hfind : assocFind rl.buckets ip = some b)
    (hlo : rl.limit - c ≤ b.tokens) (hhi : b.tokens ≤ rl.limit)
    (hcount : c + (ts.length : ℚ) ≤ rl.limit) :
    (allowRun rl (ts.map fun t => (t, ip))).1 = List.replicate ts.length true ∧
    ∃ b', assocFind ((allowRun rl (ts.map fun t => (t, ip))).2).buckets ip = some b' ∧
      rl.limit - (c + (ts.length : ℚ)) ≤ b'.tokens ∧ b'.tokens ≤ rl.limit := by
  induction ts generalizing rl b c with
  | nil =>
      refine ⟨rfl, b, hfind, ?_, hhi⟩
      simpa using hlo
  | cons t rest ih =>
      have hlen : c + ((rest.length : ℚ) + 1) ≤ rl.limit := by
        simp only [List.length_cons] at hcount
        push_cast at hcount
        linarith
      have h1 : 1 ≤ b.tokens := by
        have hn : (0:ℚ) ≤ (rest.length : ℚ) := by positivity
        linarith
      obtain ⟨tok1, l1, htok_lo, htok_hi, hstep⟩ :=
        Allow_step_admit rl t ip b hrate hfind h1 hhi
      have hfind2 :
          assocFind ((rl.Allow t ip).2).buckets ip = some { tokens := tok1 - 1, last := l1 } := by
        rw [hstep]
        exact assocFind_assocSet_self _ _ _
      have hres : (rl.Allow t ip).1 = true := by rw [hstep]
      have hlim2 : ((rl.Allow t ip).2).limit = rl.limit := Allow_limit_eq rl t ip
      have hrate2 : ((rl.Allow t ip).2).rate = rl.rate := Allow_rate_eq rl t ip
      obtain ⟨ihres, b2, ihfind, ihlo, ihhi⟩ :=
        ih (rl.Allow t ip).2 { tokens := tok1 - 1, last := l1 } (c + 1)
          (by rw [hrate2]; exact hrate) (by linarith) hfind2
          (by rw [hlim2]
              show rl.limit - (c + 1) ≤ tok1 - 1
              linarith)
          (by rw [hlim2]
              show tok1 - 1 ≤ rl.limit
              linarith)
          (by rw [hlim2]; linarith)
      rw [hlim2] at ihlo ihhi
      simp only [List.map_cons, allowRun, List.length_cons]
      refine ⟨?_, b2, ihfind, ?_, ihhi⟩
      · rw [hres, ihres, List.replicate_succ]
      · push_cast
        linarith

theorem Allow_same_instant_step (rl : ipRateLimiter) (ip : String) (t c : ℚ)
    (hfind : assocFind rl.buckets ip = some { tokens := c, last := t })
    (hc : 1 ≤ c) :
    rl.Allow t ip =
      (true, { rl with buckets := assocSet rl.buckets ip { tokens := c - 1, last := t } }) := by
  unfold ipRateLimiter.Allow
  rw [hfind]
  dsimp only
  rw [if_neg (show ¬(0 < t - ({ tokens := c, last := t } : bucket).last) by
    show ¬(0 < t - t); simp)]
  rw [if_neg (show ¬(({ tokens := c, last := t } : bucket).tokens < 1) by
    show ¬(c < 1); linarith)]

theorem Allow_same_instant_reject (rl : ipRateLimiter) (ip : String) (t c : ℚ)
    (hfind : assocFind rl.buckets ip = some { tokens := c, last := t })
    (hc : c < 1) :
    (rl.Allow t ip).1 = false := by
  unfold ipRateLimiter.Allow
  rw [hfind]
  dsimp only
  rw [if_neg (show ¬(0 < t - ({ tokens := c, last := t } : bucket).last) by
    show ¬(0 < t - t); simp)]
  rw [if_pos (show ({ tokens := c, last := t } : bucket).tokens < 1 from hc)]

theorem allowRun_same_instant (k : ℕ) (rl : ipRateLimiter) (ip : String) (t c : ℚ)
    (hfind : assocFind rl.buckets ip = some { tokens := c, last := t })
    (hk : (k : ℚ) ≤ c) :
    (allowRun rl (List.replicate k (t, ip))).1 = List.replicate k true ∧
    assocFind ((allowRun rl (List.replicate k (t, ip))).2).buckets ip
      = some { tokens := c - (k : ℚ), last := t } := by
  induction k generalizing rl c with
  | zero => simpa [allowRun] using hfind
  | succ n ih =>
      have hc1 : 1 ≤ c := by
        have : ((n : ℚ) + 1) ≤ c := by push_cast at hk; linarith
        have hn : (0:ℚ) ≤ (n : ℚ) := by positivity
        linarith
      have hstep := Allow_same_instant_step rl ip t c hfind hc1
      have hfind2 :
          assocFind ((rl.Allow t ip).2).buckets ip = some { tokens := c - 1, last := t } := by
        rw [hstep]
        exact assocFind_assocSet_self _ _ _
      obtain ⟨ihres, ihfind⟩ := ih (rl.Allow t ip).2 (c - 1) hfind2
        (by push_cast at hk; linarith)
      have hres : (rl.Allow t ip).1 = true := by rw [hstep]
      constructor
      · simp only [List.replicate_succ, allowRun, hres, ihres]
      · simp only [List.replicate_succ, allowRun]
        rw [ihfind]
        congr 1
        push_cast
        ring_nf

theorem Allow_refill_admit (rl : ipRateLimiter) (t : ℚ) (ip : String) (b : bucket)
    (hfind : assocFind rl.buckets ip = some b) (he : 0 < t - b.last)
    (hcl : ¬(rl.limit < b.tokens + (t - b.last) * rl.rate))
    (h1 : ¬(b.tokens + (t - b.last) * rl.rate < 1)) :
    (rl.Allow t ip).1 = true := by
  unfold ipRateLimiter.Allow
  rw [hfind]
  dsimp only
  rw [if_pos he, if_neg hcl]
  rw [if_neg (show ¬(({ tokens := b.tokens + (t - b.last) * rl.rate, last := t } : bucket).tokens < 1)
    from h1)]

theorem allowRun_fresh_admits (ts : List ℚ) (rl : ipRateLimiter) (ip : String)
    (hempty : assocFind rl.buckets ip = none) (hrate : 0 ≤ rl.rate)
    (hcount : (ts.length : ℚ) ≤ rl.limit) :
    (allowRun rl (ts.map fun t => (t, ip))).1 = List.replicate ts.length true := by
  cases ts with
  | nil => rfl
  | cons t rest =>
      have hstep : rl.Allow t ip =
          (true, { rl with buckets := assocSet rl.buckets ip { tokens := rl.limit - 1, last := t } }) := by
        unfold ipRateLimiter.Allow
        rw [hempty]
      have hfind2 :
          assocFind ((rl.Allow t ip).2).buckets ip = some { tokens := rl.limit - 1, last := t } := by
        rw [hstep]
        exact assocFind_assocSet_self _ _ _
      have hres : (rl.Allow t ip).1 = true := by rw [hstep]
      have hlim2 := Allow_limit_eq rl t ip
      have hlen : (1:ℚ) + (rest.length : ℚ) ≤ rl.limit := by
        simp only [List.length_cons] at hcount
        push_cast at hcount
        linarith
      obtain ⟨ihres, -⟩ :=
        allowRun_single_ip_admits rest (rl.Allow t ip).2 ip { tokens := rl.limit - 1, last := t } 1
          (by rw [Allow_rate_eq]; exact hrate) (by norm_num) hfind2
          (by rw [hlim2])
          (by rw [hlim2]; show rl.limit - 1 ≤ rl.limit; linarith)
          (by rw [hlim2]; linarith)
      simp only [List.map_cons, allowRun, List.length_cons, List.replicate_succ, hres, ihres]

/-! ### Header lemmas -/

theorem assocFind_headerDel_self (h : Headers) (k : String) :
    assocFind (headerDel h k) k = none := by
  induction h with
  | nil => rfl
  | cons q rest ih =>
      obtain ⟨k₀, v₀⟩ := q
      by_cases h0 : k₀ = k
      · simpa [headerDel, h0] using ih
      · simp [headerDel, assocFind, h0, ih]

theorem assocFind_headerDel_ne (h : Headers) (k k' : String) (hne : k' ≠ k) :
    assocFind (headerDel h k) k' = assocFind h k' := by
  induction h with
  | nil => rfl
  | cons q rest ih =>
      obtain ⟨k₀, v₀⟩ := q
      by_cases h0 : k₀ = k
      · subst h0
        simp [headerDel, assocFind, Ne.symm hne, ih]
      · simp [headerDel, assocFind, h0, ih]

theorem assocFind_foldl_headerDel_none (names : List String) (h : Headers) (k : String)
    (h0 : assocFind h k = none) : assocFind (names.foldl headerDel h) k = none := by
  induction names generalizing h with
  | nil => exact h0
  | cons n rest ih =>
      apply ih
      by_cases hn : k = n
      · subst hn
        exact assocFind_headerDel_self h k
      · rw [assocFind_headerDel_ne h n k hn]
        exact h0

theorem assocFind_foldl_headerDel_mem (names : List String) (h : Headers) (k : String)
    (hk : k ∈ names) : assocFind (names.foldl headerDel h) k = none := by
  induction names generalizing h with
  | nil => cases hk
  | cons n rest ih =>
      rcases List.mem_cons.mp hk with rfl | hk2
      · exact assocFind_foldl_headerDel_none rest (headerDel h k) k
          (assocFind_headerDel_self h k)
      · exact ih (headerDel h n) hk2

theorem assocFind_foldl_headerDel_not_mem (names : List String) (h : Headers) (k : String)
    (hk : k ∉ names) : assocFind (names.foldl headerDel h) k = assocFind h k := by
  induction names generalizing h with
  | nil => rfl
  | cons n rest ih =>
      have h1 : k ≠ n := fun he => hk (he ▸ List.mem_cons_self n rest)
      have h2 : k ∉ rest := fun he => hk (List.mem_cons_of_mem n he)
      rw [List.foldl_cons, ih (headerDel h n) h2, assocFind_headerDel_ne h n k h1]

theorem assocFind_originalDirector (req : OutRequest) (k : String) (hk : k ≠ "User-Agent") :
    assocFind (originalDirector req).headers k = assocFind req.headers k := by
  unfold originalDirector
  dsimp only
  split
  · exact assocFind_assocSet_ne _ _ _ _ hk
  · rfl

theorem assocFind_director_other (req : OutRequest) (name : String)
    (hua : name ≠ "User-Agent") (hal : name ≠ "Accept-Language")
    (hae : name ≠ "Accept-Encoding") :
    assocFind (director req).headers name
      = assocFind (strippedProxyHeaders.foldl headerDel (originalDirector req).headers) name := by
  have r1 : ∀ (m : Headers) v, assocFind (assocSet m "User-Agent" v) name = assocFind m name :=
    fun m v => assocFind_assocSet_ne m "User-Agent" name v hua
  have r2 : ∀ (m : Headers) v, assocFind (assocSet m "Accept-Language" v) name = assocFind m name :=
    fun m v => assocFind_assocSet_ne m "Accept-Language" name v hal
  have r3 : ∀ (m : Headers) v, assocFind (assocSet m "Accept-Encoding" v) name = assocFind m name :=
    fun m v => assocFind_assocSet_ne m "Accept-Encoding" name v hae
  unfold director
  dsimp only
  split <;> split <;> simp only [headerSet, r1, r2, r3]

theorem assocFind_director_AL (req : OutRequest) :
    assocFind (director req).headers "Accept-Language"
      = if headerGet req.headers "Accept-Language" = "" then some [defaultAcceptLanguage]
        else assocFind req.headers "Accept-Language" := by
  have rAE : ∀ (m : Headers) v,
      assocFind (assocSet m "Accept-Encoding" v) "Accept-Language" = assocFind m "Accept-Language" :=
    fun m v => assocFind_assocSet_ne m _ _ v (by decide)
  have hbase :
      assocFind (assocSet (strippedProxyHeaders.foldl headerDel (originalDirector req).headers)
          "User-Agent" [chromeUA]) "Accept-Language"
        = assocFind req.headers "Accept-Language" := by
    rw [assocFind_assocSet_ne _ _ _ _ (by decide),
      assocFind_foldl_headerDel_not_mem _ _ _ (by decide),
      assocFind_originalDirector req _ (by decide)]
  have hget :
      headerGet (assocSet (strippedProxyHeaders.foldl headerDel (originalDirector req).headers)
          "User-Agent" [chromeUA]) "Accept-Language"
        = headerGet req.headers "Accept-Language" := by
    unfold headerGet
    rw [hbase]
  unfold director
  simp only [headerSet]
  rw [hget]
  by_cases hAL : headerGet req.headers "Accept-Language" = ""
  · simp only [if_pos hAL]
    split
    · dsimp only
      rw [rAE, assocFind_assocSet_self]
    · rw [assocFind_assocSet_self]
  · simp only [if_neg hAL]
    split
    · dsimp only
      rw [rAE, hbase]
    · exact hbase

theorem assocFind_director_AE (req : OutRequest) :
    assocFind (director req).headers "Accept-Encoding"
      = if headerGet req.headers "Accept-Encoding" = "" then some [defaultAcceptEncoding]
        else assocFind req.headers "Accept-Encoding" := by
  have rAL : ∀ (m : Headers) v,
      assocFind (assocSet m "Accept-Language" v) "Accept-Encoding" = assocFind m "Accept-Encoding" :=
    fun m v => assocFind_assocSet_ne m _ _ v (by decide)
  have hbase :
      assocFind (assocSet (strippedProxyHeaders.foldl headerDel (originalDirector req).headers)
          "User-Agent" [chromeUA]) "Accept-Encoding"
        = assocFind req.headers "Accept-Encoding" := by
    rw [assocFind_assocSet_ne _ _ _ _ (by decide),
      assocFind_foldl_headerDel_not_mem _ _ _ (by decide),
      assocFind_originalDirector req _ (by decide)]
  have hgetbase :
      headerGet (assocSet (strippedProxyHeaders.foldl headerDel (originalDirector req).headers)
          "User-Agent" [chromeUA]) "Accept-Encoding"
        = headerGet req.headers "Accept-Encoding" := by
    unfold headerGet
    rw [hbase]
  have hgetAL : ∀ (m : Headers) v,
      headerGet (assocSet m "Accept-Language" v) "Accept-Encoding" = headerGet m "Accept-Encoding" := by
    intro m v
    unfold headerGet
    rw [rAL]
  unfold director
  simp only [headerSet]
  split
  · dsimp only
    rw [hgetAL, hgetbase]
    split
    · rw [assocFind_assocSet_self]
    · rw [rAL, hbase]
  · rw [hgetbase]
    split
    · rw [assocFind_assocSet_self]
    · exact hbase

/-! ### Outbound-preparation lemmas -/

theorem connectionTokens_congr (h h2 : Headers)
    (he : assocFind h "Connection" = assocFind h2 "Connection") :
    connectionTokens h = connectionTokens h2 := by
  unfold connectionTokens
  rw [he]

theorem assocFind_foldl_delCanon_not_mem (ts : List String) (h : Headers) (k : String)
    (hk : k ∉ ts.map canonicalHeaderKey) :
    assocFind (ts.foldl (fun acc sf => headerDel acc (canonicalHeaderKey sf)) h) k
      = assocFind h k := by
  induction ts generalizing h with
  | nil => rfl
  | cons t rest ih =>
      have h1 : k ≠ canonicalHeaderKey t := by
        intro he
        exact hk (by rw [List.map_cons, he]; exact List.mem_cons_self _ _)
      have h2 : k ∉ rest.map canonicalHeaderKey := by
        intro he
        exact hk (by rw [List.map_cons]; exact List.mem_cons_of_mem _ he)
      rw [List.foldl_cons, ih _ h2, assocFind_headerDel_ne _ _ _ h1]

theorem assocFind_removeHopByHopHeaders (h : Headers) (k : String)
    (hconn : k ∉ (connectionTokens h).map canonicalHeaderKey) (hhop : k ∉ hopHeaders) :
    assocFind (removeHopByHopHeaders h) k = assocFind h k := by
  unfold removeHopByHopHeaders
  rw [assocFind_foldl_headerDel_not_mem _ _ _ hhop,
    assocFind_foldl_delCanon_not_mem _ _ _ hconn]

theorem assocFind_director_Connection (req : OutRequest) :
    assocFind (director req).headers "Connection" = assocFind req.headers "Connection" := by
  rw [assocFind_director_other req _ (by decide) (by decide) (by decide),
    assocFind_foldl_headerDel_not_mem _ _ _ (by decide),
    assocFind_originalDirector req _ (by decide)]

theorem assocFind_serveHTTPOutbound_preserved (remoteAddr : String) (req : OutRequest)
    (k : String) (hTe : k ≠ "Te") (hConn : k ≠ "Connection") (hUp : k ≠ "Upgrade")
    (hXff : k ≠ "X-Forwarded-For") :
    assocFind (serveHTTPOutbound remoteAddr req).headers k
      = assocFind (removeHopByHopHeaders (director req).headers) k := by
  have rTe : ∀ (m : Headers) v, assocFind (assocSet m "Te" v) k = assocFind m k :=
    fun m v => assocFind_assocSet_ne m _ _ v hTe
  have rConn : ∀ (m : Headers) v, assocFind (assocSet m "Connection" v) k = assocFind m k :=
    fun m v => assocFind_assocSet_ne m _ _ v hConn
  have rUp : ∀ (m : Headers) v, assocFind (assocSet m "Upgrade" v) k = assocFind m k :=
    fun m v => assocFind_assocSet_ne m _ _ v hUp
  have rXff : ∀ (m : Headers) v, assocFind (assocSet m "X-Forwarded-For" v) k = assocFind m k :=
    fun m v => assocFind_assocSet_ne m _ _ v hXff
  unfold serveHTTPOutbound
  dsimp only
  repeat' split
  all_goals simp only [headerSet, rTe, rConn, rUp, rXff]

/-! ### Cross-IP isolation lemmas -/

theorem Allow_find_other (rl : ipRateLimiter) (t : ℚ) (ip ip2 : String) (hne : ip2 ≠ ip) :
    assocFind ((rl.Allow t ip).2).buckets ip2 = assocFind rl.buckets ip2 := by
  unfold ipRateLimiter.Allow
  cases assocFind rl.buckets ip
  · exact assocFind_assocSet_ne _ _ _ _ hne
  · dsimp only
    repeat' split
    all_goals exact assocFind_assocSet_ne _ _ _ _ hne

theorem Allow_result_congr (rl1 rl2 : ipRateLimiter) (t : ℚ) (ip : String)
    (hL : rl1.limit = rl2.limit) (hR : rl1.rate = rl2.rate)
    (hF : assocFind rl1.buckets ip = assocFind rl2.buckets ip) :
    (rl1.Allow t ip).1 = (rl2.Allow t ip).1 := by
  unfold ipRateLimiter.Allow
  rw [hF]
  cases assocFind rl2.buckets ip with
  | none => rfl
  | some b =>
      dsimp only
      rw [hL, hR]
      repeat' split
      all_goals rfl

theorem allowRun_find_other (calls : List (ℚ × String)) (rl : ipRateLimiter) (ip2 : String)
    (hne : ∀ c ∈ calls, c.2 ≠ ip2) :
    assocFind ((allowRun rl calls).2).buckets ip2 = assocFind rl.buckets ip2 := by
  induction calls generalizing rl with
  | nil => rfl
  | cons c rest ih =>
      obtain ⟨t, ip⟩ := c
      have h1 : ip ≠ ip2 := hne (t, ip) (List.mem_cons_self _ _)
      have h2 := ih (rl.Allow t ip).2 (fun c hc => hne c (List.mem_cons_of_mem _ hc))
      calc assocFind ((allowRun rl ((t, ip) :: rest)).2).buckets ip2
          = assocFind ((allowRun (rl.Allow t ip).2 rest).2).buckets ip2 := rfl
        _ = assocFind ((rl.Allow t ip).2).buckets ip2 := h2
        _ = assocFind rl.buckets ip2 := Allow_find_other rl t ip ip2 (Ne.symm h1)

/-! ### Middleware-chain lemmas -/

theorem clientIP_eq_claimDerivedIP (r : HttpRequest) : clientIP r = claimDerivedIP r := by
  simp only [clientIP, claimDerivedIP]
  split_ifs <;> try rfl
  cases splitHostPort r.remoteAddr <;> rfl

theorem serveHTTP_limiter (st : ServerState) (now : ℚ) (nowRFC : String)
    (proxyResp : HttpResponse) (r : HttpRequest) :
    ((serveHTTP st now nowRFC proxyResp r).2).limiter = (st.limiter.Allow now (clientIP r)).2 := by
  unfold serveHTTP rateLimitMiddleware
  dsimp only
  split <;> rfl

theorem serveHTTP_accessQ (st : ServerState) (now : ℚ) (nowRFC : String)
    (proxyResp : HttpResponse) (r : HttpRequest) :
    ((serveHTTP st now nowRFC proxyResp r).2).accessQ
      = enqueueAccess st.accessQ (accessMsg (clientIP r) (headerGet r.headers "User-Agent")) := rfl

theorem serveHTTP_response_admitted (st : ServerState) (now : ℚ) (nowRFC : String)
    (proxyResp : HttpResponse) (r : HttpRequest)
    (h : (st.limiter.Allow now (clientIP r)).1 = true) :
    (serveHTTP st now nowRFC proxyResp r).1 = muxServe nowRFC proxyResp r := by
  unfold serveHTTP rateLimitMiddleware
  dsimp only
  rw [h]
  rfl

theorem serveHTTP_response_rejected (st : ServerState) (now : ℚ) (nowRFC : String)
    (proxyResp : HttpResponse) (r : HttpRequest)
    (h : (st.limiter.Allow now (clientIP r)).1 = false) :
    (serveHTTP st now nowRFC proxyResp r).1 = tooManyRequestsResponse := by
  unfold serveHTTP rateLimitMiddleware
  dsimp only
  rw [h]
  rfl

theorem defaultIPLimiter_eq :
    defaultIPLimiter = { limit := 300, rate := 30, buckets := [] } := by
  norm_num [defaultIPLimiter, newIPRateLimiter]

theorem allowRun_cons (rl : ipRateLimiter) (t : ℚ) (ip : String) (l : List (ℚ × String)) :
    allowRun rl ((t, ip) :: l)
      = ((rl.Allow t ip).1 :: (allowRun (rl.Allow t ip).2 l).1,
         (allowRun (rl.Allow t ip).2 l).2) := rfl

theorem allowRun_singleton (rl : ipRateLimiter) (t : ℚ) (ip : String) :
    (allowRun rl [(t, ip)]).1 = [(rl.Allow t ip).1] := rfl

/-! ## Claims -/

/-- C2 (confirmed): for every limiter built by `newIPRateLimiter` with
capacity at least 1 and every sequence of `Allow` calls, every bucket in the
limiter's map holds between 0 and capacity tokens after every call: creation
at capacity − 1, refill clamped at capacity, debit only from at least one
token, no debit on rejection. -/
theorem C2_token_bounds (maxReq : ℤ) (window : ℚ) (hmax : 1 ≤ maxReq)
    (calls : List (ℚ × String)) (ip : String) (b : bucket)
    (hfind : assocFind ((allowRun (newIPRateLimiter maxReq window) calls).2).buckets ip = some b) :
    0 ≤ b.tokens ∧ b.tokens ≤ (maxReq : ℚ) := by
  have hinv : bucketsInv (allowRun (newIPRateLimiter maxReq window) calls).2 := by
    apply allowRun_bucketsInv
    · rw [newIPRateLimiter_limit]
      exact_mod_cast hmax
    · exact newIPRateLimiter_rate_nonneg maxReq window (by linarith)
    · intro p hp
      rw [show (newIPRateLimiter maxReq window).buckets = [] from rfl] at hp
      cases hp
  have hmem := hinv _ (assocFind_mem _ _ _ hfind)
  rwa [allowRun_limit_eq, newIPRateLimiter_limit] at hmem

/-- C2 witness: the default policy after one call at second 0 leaves the
caller's bucket at 299 tokens, within the bounds. -/
theorem C2_witness :
    0 ≤ ({ tokens := 299, last := 0 } : bucket).tokens ∧
      ({ tokens := 299, last := 0 } : bucket).tokens ≤ ((300 : ℤ) : ℚ) :=
  C2_token_bounds 300 10 (by norm_num) [((0:ℚ), "a")] "a" { tokens := 299, last := 0 }
    (by norm_num [newIPRateLimiter, allowRun, ipRateLimiter.Allow, assocFind, assocSet])

/-- C8 (confirmed): any sequence of `Allow` calls for `ip1 ≠ ip2` leaves
`ip2`'s bucket untouched, and a subsequent `Allow(ip2)` decides exactly as it
would have without those calls. -/
theorem C8_independent_quotas (rl : ipRateLimiter) (ts : List ℚ) (now : ℚ)
    (ip1 ip2 : String) (hne : ip1 ≠ ip2) :
    assocFind ((allowRun rl (ts.map fun t => (t, ip1))).2).buckets ip2
        = assocFind rl.buckets ip2 ∧
    (((allowRun rl (ts.map fun t => (t, ip1))).2).Allow now ip2).1 = (rl.Allow now ip2).1 := by
  have hfind : assocFind ((allowRun rl (ts.map fun t => (t, ip1))).2).buckets ip2
      = assocFind rl.buckets ip2 := by
    apply allowRun_find_other
    intro c hc
    obtain ⟨t, -, rfl⟩ := List.mem_map.mp hc
    exact hne
  exact ⟨hfind, Allow_result_congr _ _ now ip2 (allowRun_limit_eq _ _) (allowRun_rate_eq _ _) hfind⟩

/-- C8 witness: one call for "a" does not create or alter a bucket for "b",
and "b"'s next decision is unchanged. -/
theorem C8_witness :
    (assocFind ((allowRun defaultIPLimiter ([(0:ℚ)].map fun t => (t, "a"))).2).buckets "b"
        = assocFind defaultIPLimiter.buckets "b") ∧
    (((allowRun defaultIPLimiter ([(0:ℚ)].map fun t => (t, "a"))).2.Allow 0 "b").1
        = (defaultIPLimiter.Allow 0 "b").1) :=
  C8_independent_quotas defaultIPLimiter [0] 0 "a" "b" (by decide)

set_option maxRecDepth 4000 in
/-- C1 counterexample: with the default policy (capacity 300, window 10 s),
301 calls from one IP all within the window `[0, 10]` — 300 at second 0 and
the 301st at second 5 — are ALL admitted: the (capacity+1)-th call within the
same window returns `true`, because the continuous refill has restored
`5 × 30 = 150` tokens by second 5, contradicting the claim as stated. -/
theorem C1_counterexample :
    (allowRun defaultIPLimiter
        (List.replicate 300 ((0:ℚ), "198.51.100.7") ++ [((5:ℚ), "198.51.100.7")])).1
      = List.replicate 301 true := by
  rw [defaultIPLimiter_eq]
  have step1 : ({ limit := 300, rate := 30, buckets := [] } : ipRateLimiter).Allow 0 "198.51.100.7"
      = (true, { limit := 300, rate := 30,
                 buckets := [("198.51.100.7", { tokens := 299, last := 0 })] }) := by
    norm_num [ipRateLimiter.Allow, assocFind, assocSet]
  obtain ⟨hres2, hfind2⟩ :=
    allowRun_same_instant 299
      { limit := 300, rate := 30, buckets := [("198.51.100.7", { tokens := 299, last := 0 })] }
      "198.51.100.7" 0 299 (by simp [assocFind]) (by norm_num)
  have hL : ((allowRun
      { limit := 300, rate := 30, buckets := [("198.51.100.7", { tokens := 299, last := 0 })] }
      (List.replicate 299 ((0:ℚ), "198.51.100.7"))).2).limit = 300 := allowRun_limit_eq _ _
  have hR : ((allowRun
      { limit := 300, rate := 30, buckets := [("198.51.100.7", { tokens := 299, last := 0 })] }
      (List.replicate 299 ((0:ℚ), "198.51.100.7"))).2).rate = 30 := allowRun_rate_eq _ _
  have hfin : (((allowRun
      { limit := 300, rate := 30, buckets := [("198.51.100.7", { tokens := 299, last := 0 })] }
      (List.replicate 299 ((0:ℚ), "198.51.100.7"))).2).Allow 5 "198.51.100.7").1 = true := by
    apply Allow_refill_admit _ _ _ _ hfind2
    · show (0:ℚ) < 5 - 0
      norm_num
    · rw [hL, hR]
      show ¬((300:ℚ) < (299 - ((299:ℕ):ℚ)) + (5 - 0) * 30)
      push_cast
      norm_num
    · rw [hR]
      show ¬((299 - ((299:ℕ):ℚ)) + (5 - 0) * 30 < 1)
      push_cast
      norm_num
  have hmid : (allowRun
      { limit := 300, rate := 30, buckets := [("198.51.100.7", { tokens := 299, last := 0 })] }
      (List.replicate 299 ((0:ℚ), "198.51.100.7") ++ [((5:ℚ), "198.51.100.7")])).1
      = List.replicate 299 true ++ [true] := by
    rw [allowRun_append]
    dsimp only
    rw [hres2, allowRun_singleton, hfin]
  have hwhole : (allowRun ({ limit := 300, rate := 30, buckets := [] } : ipRateLimiter)
      (((0:ℚ), "198.51.100.7")
        :: (List.replicate 299 ((0:ℚ), "198.51.100.7") ++ [((5:ℚ), "198.51.100.7")]))).1
      = true :: (List.replicate 299 true ++ [true]) := by
    rw [allowRun_cons]
    dsimp only
    rw [step1]
    dsimp only
    rw [hmid]
  have hlist : true :: (List.replicate 299 true ++ [true]) = List.replicate 301 true := by
    decide
  rw [show (300:ℕ) = 299 + 1 from rfl, List.replicate_succ, List.cons_append]
  exact hwhole.trans hlist

set_option maxRecDepth 4000 in
/-- C1 (corrected): under the default policy (capacity 300, window 10 s), any
sequence of at most 300 `Allow` calls from one IP within one window is fully
admitted; and the 301st call is rejected when no refill can intervene — in
particular when all 301 calls carry the same timestamp (the claim's
unconditional rejection of the 301st call within the window fails once the
continuous refill restores a token, see the counterexample). -/
theorem C1_amended :
    (∀ (ip : String) (ts : List ℚ) (t0 : ℚ), ts.length ≤ 300 →
        (∀ t ∈ ts, t0 ≤ t ∧ t ≤ t0 + 10) →
        (allowRun defaultIPLimiter (ts.map fun t => (t, ip))).1
          = List.replicate ts.length true) ∧
    (∀ (ip : String) (t : ℚ),
        (allowRun defaultIPLimiter (List.replicate 301 (t, ip))).1
          = List.replicate 300 true ++ [false]) := by
  constructor
  · intro ip ts t0 hlen _
    apply allowRun_fresh_admits
    · rfl
    · rw [defaultIPLimiter_eq]
      norm_num
    · rw [defaultIPLimiter_eq]
      show (ts.length : ℚ) ≤ 300
      exact_mod_cast hlen
  · intro ip t
    rw [defaultIPLimiter_eq]
    have step1 : ({ limit := 300, rate := 30, buckets := [] } : ipRateLimiter).Allow t ip
        = (true, { limit := 300, rate := 30, buckets := [(ip, { tokens := 299, last := t })] }) := by
      norm_num [ipRateLimiter.Allow, assocFind, assocSet]
    obtain ⟨hres2, hfind2⟩ :=
      allowRun_same_instant 299
        { limit := 300, rate := 30, buckets := [(ip, { tokens := 299, last := t })] }
        ip t 299 (by simp [assocFind]) (by norm_num)
    have hfin : (((allowRun
        { limit := 300, rate := 30, buckets := [(ip, { tokens := 299, last := t })] }
        (List.replicate 299 (t, ip))).2).Allow t ip).1 = false := by
      apply Allow_same_instant_reject _ _ _ _ hfind2
      push_cast
      norm_num
    have hmid : (allowRun
        { limit := 300, rate := 30, buckets := [(ip, { tokens := 299, last := t })] }
        (List.replicate 299 (t, ip) ++ [(t, ip)])).1
        = List.replicate 299 true ++ [false] := by
      rw [allowRun_append]
      dsimp only
      rw [hres2, allowRun_singleton, hfin]
    have hwhole : (allowRun ({ limit := 300, rate := 30, buckets := [] } : ipRateLimiter)
        ((t, ip) :: (List.replicate 299 (t, ip) ++ [(t, ip)]))).1
        = true :: (List.replicate 299 true ++ [false]) := by
      rw [allowRun_cons]
      dsimp only
      rw [step1]
      dsimp only
      rw [hmid]
    have hlist : true :: (List.replicate 299 true ++ [false])
        = List.replicate 300 true ++ [false] := by
      decide
    conv_lhs => rw [show (301:ℕ) = 300 + 1 from rfl, List.replicate_succ,
      show (300:ℕ) = 299 + 1 from rfl, List.replicate_succ']
    exact hwhole.trans hlist

/-- C1 witness: two spread calls are admitted, and 301 simultaneous calls
are admitted exactly 300 times with the 301st rejected. -/
theorem C1_witness :
    (allowRun defaultIPLimiter ([(0:ℚ), 1].map fun t => (t, "w"))).1 = List.replicate 2 true ∧
    (allowRun defaultIPLimiter (List.replicate 301 ((7:ℚ), "w"))).1
      = List.replicate 300 true ++ [false] :=
  ⟨C1_amended.1 "w" [0, 1] 0 (by norm_num)
      (by
        intro t ht
        rcases List.mem_cons.mp ht with rfl | ht2
        · norm_num
        · rcases List.mem_singleton.mp ht2 with rfl
          norm_num),
   C1_amended.2 "w" 7⟩

/-- C3 (code bug): the Director deletes `X-Forwarded-For`, but
`ReverseProxy.ServeHTTP` re-sets it to the client IP after the Director runs —
only a nil header-map entry suppresses the injection, and `Header.Del`
removes the key instead — so the request actually forwarded upstream carries
`X-Forwarded-For` for every connection whose remote address splits into host
and port. Evaluated at the failing input, a plain request from
`203.0.113.5:44321`: the forwarded request carries the client IP in
`X-Forwarded-For`, a stripped proxy-revealing name, while a representative
other stripped name (`Via`) is indeed absent. -/
theorem C3_code_bug_eval :
    assocFind (serveHTTPOutbound "203.0.113.5:44321"
        { urlScheme := "http", urlHost := "", host := "", headers := [] }).headers
      "X-Forwarded-For" = some ["203.0.113.5"] ∧
    "X-Forwarded-For" ∈ strippedProxyHeaders ∧
    assocFind (serveHTTPOutbound "203.0.113.5:44321"
        { urlScheme := "http", urlHost := "", host := "", headers := [] }).headers
      "Via" = none := by
  refine ⟨by decide, by decide, by decide⟩

/-- C5 counterexample, two reachable inputs against the request actually sent
upstream: (a) an inbound request that DOES carry an Accept-Language header —
with the empty value — has that value replaced by the injected default rather
than forwarded unmodified; (b) an inbound request whose `Connection` header
names `Accept-Language` reaches the upstream with no Accept-Language at all
(`removeHopByHopHeaders` deletes the injected default after the Director),
though the claim promises the forwarded default. -/
theorem C5_counterexample :
    (assocFind
        ({ urlScheme := "http"
           urlHost := "h"
           host := "h"
           headers := [("Accept-Language", [""])] } : OutRequest).headers
        "Accept-Language").isSome = true ∧
    assocFind (serveHTTPOutbound "203.0.113.5:44321"
        { urlScheme := "http"
          urlHost := "h"
          host := "h"
          headers := [("Accept-Language", [""])] }).headers "Accept-Language"
      = some [defaultAcceptLanguage] ∧
    some [defaultAcceptLanguage]
      ≠ assocFind
          ({ urlScheme := "http"
             urlHost := "h"
             host := "h"
             headers := [("Accept-Language", [""])] } : OutRequest).headers
          "Accept-Language" ∧
    assocFind (serveHTTPOutbound "203.0.113.5:44321"
        { urlScheme := "http"
          urlHost := "h"
          host := "h"
          headers := [("Connection", ["Accept-Language"])] }).headers "Accept-Language"
      = none := by
  refine ⟨rfl, by decide, by decide, by decide⟩

/-- C5 (corrected): for the request actually sent upstream, the preference
headers follow Go's `Header.Get` emptiness test and survive only when not
named as hop-by-hop: provided the inbound `Connection` header does not name
Accept-Language (resp. Accept-Encoding), an inbound header that is absent or
has an empty first value yields the injected default, and one with a
non-empty first value is forwarded unmodified. -/
theorem C5_amended (remoteAddr : String) (req : OutRequest)
    (hALconn : "Accept-Language" ∉ (connectionTokens req.headers).map canonicalHeaderKey)
    (hAEconn : "Accept-Encoding" ∉ (connectionTokens req.headers).map canonicalHeaderKey) :
    (assocFind (serveHTTPOutbound remoteAddr req).headers "Accept-Language"
        = if headerGet req.headers "Accept-Language" = "" then some [defaultAcceptLanguage]
          else assocFind req.headers "Accept-Language") ∧
    (assocFind (serveHTTPOutbound remoteAddr req).headers "Accept-Encoding"
        = if headerGet req.headers "Accept-Encoding" = "" then some [defaultAcceptEncoding]
          else assocFind req.headers "Accept-Encoding") := by
  have htok : connectionTokens (director req).headers = connectionTokens req.headers :=
    connectionTokens_congr _ _ (assocFind_director_Connection req)
  constructor
  · rw [assocFind_serveHTTPOutbound_preserved remoteAddr req _ (by decide) (by decide)
        (by decide) (by decide),
      assocFind_removeHopByHopHeaders _ _ (by rw [htok]; exact hALconn) (by decide),
      assocFind_director_AL]
  · rw [assocFind_serveHTTPOutbound_preserved remoteAddr req _ (by decide) (by decide)
        (by decide) (by decide),
      assocFind_removeHopByHopHeaders _ _ (by rw [htok]; exact hAEconn) (by decide),
      assocFind_director_AE]

/-- C5 witness: a request carrying a non-empty Accept-Language and no
Connection header forwards the header entry unmodified. -/
theorem C5_witness :
    assocFind (serveHTTPOutbound "203.0.113.5:44321"
        { urlScheme := "http"
          urlHost := "h"
          host := "h"
          headers := [("Accept-Language", ["en-US"])] }).headers "Accept-Language"
      = if headerGet ({ urlScheme := "http"
                        urlHost := "h"
                        host := "h"
                        headers := [("Accept-Language", ["en-US"])] } : OutRequest).headers
            "Accept-Language" = "" then some [defaultAcceptLanguage]
        else assocFind ({ urlScheme := "http"
                          urlHost := "h"
                          host := "h"
                          headers := [("Accept-Language", ["en-US"])] } : OutRequest).headers
              "Accept-Language" :=
  (C5_amended "203.0.113.5:44321"
    { urlScheme := "http"
      urlHost := "h"
      host := "h"
      headers := [("Accept-Language", ["en-US"])] }
    (by decide) (by decide)).1

/-- C10 (confirmed): for every request, the rate limiter is keyed and the
access-log entry is formed from the same `clientIP` value, and that value is
derived exactly as described: the trimmed first comma-separated element of a
non-empty `X-Forwarded-For`, else a non-empty `X-Real-IP` trimmed, else the
host portion of the remote address (the whole remote address when it has no
port) — the quota key comes from client-supplied headers when they carry a
value. -/
theorem C10_client_ip (st : ServerState) (now : ℚ) (nowRFC : String)
    (proxyResp : HttpResponse) (r : HttpRequest) :
    ((serveHTTP st now nowRFC proxyResp r).2).limiter = (st.limiter.Allow now (clientIP r)).2 ∧
    ((serveHTTP st now nowRFC proxyResp r).2).accessQ
      = enqueueAccess st.accessQ (accessMsg (clientIP r) (headerGet r.headers "User-Agent")) ∧
    clientIP r = claimDerivedIP r :=
  ⟨serveHTTP_limiter st now nowRFC proxyResp r, serveHTTP_accessQ st now nowRFC proxyResp r,
   clientIP_eq_claimDerivedIP r⟩

/-- C4 (corrected): a request to `/healthz` is answered 200 with body
`ok <RFC3339 now>` regardless of the upstream response — but only when the
client's rate-limit bucket admits the request: the middleware chain runs
`rateLimitMiddleware` before the mux dispatches `/healthz`, so an exhausted
bucket yields 429 even there (see the counterexample). -/
theorem C4_amended (st : ServerState) (now : ℚ) (nowRFC : String)
    (proxyResp : HttpResponse) (r : HttpRequest)
    (hpath : r.path = "/healthz")
    (hallow : (st.limiter.Allow now (clientIP r)).1 = true) :
    (serveHTTP st now nowRFC proxyResp r).1
      = { status := 200, contentType := "text/plain; charset=utf-8", body := "ok " ++ nowRFC } := by
  rw [serveHTTP_response_admitted st now nowRFC proxyResp r hallow]
  unfold muxServe
  rw [if_pos hpath]
  rfl

/-- C4 witness: a `/healthz` request from a fresh client is answered 200 with
the timestamp body even though the configured upstream response is a 502. -/
theorem C4_witness :
    (serveHTTP
        { limiter := { limit := 300, rate := 30, buckets := [] }, accessQ := [] }
        0 "2026-02-03T04:05:06Z" { status := 502, contentType := "", body := "" }
        { path := "/healthz", headers := [], remoteAddr := "198.51.100.7:2222" }).1
      = { status := 200, contentType := "text/plain; charset=utf-8",
          body := "ok " ++ "2026-02-03T04:05:06Z" } :=
  C4_amended
    { limiter := { limit := 300, rate := 30, buckets := [] }, accessQ := [] }
    0 "2026-02-03T04:05:06Z" { status := 502, contentType := "", body := "" }
    { path := "/healthz", headers := [], remoteAddr := "198.51.100.7:2222" }
    rfl rfl

/-- C4 counterexample: in the server state where the client's bucket is
exhausted (0 tokens at the same instant), the `/healthz` request is answered
429, not 200 — rate limiting applies to the health endpoint too. -/
theorem C4_counterexample :
    (serveHTTP
        { limiter := { limit := 300
                       rate := 30
                       buckets := [("198.51.100.7", { tokens := 0, last := 0 })] }
          accessQ := [] }
        0 "2026-02-03T04:05:06Z" { status := 502, contentType := "", body := "" }
        { path := "/healthz", headers := [], remoteAddr := "198.51.100.7:2222" }).1.status
      = 429 ∧ (429 : ℕ) ≠ 200 := by
  constructor
  · have hip : clientIP { path := "/healthz", headers := [], remoteAddr := "198.51.100.7:2222" }
        = "198.51.100.7" := by decide
    have hallow : (({ limit := 300
                      rate := 30
                      buckets := [("198.51.100.7", { tokens := 0, last := 0 })] } :
          ipRateLimiter).Allow 0
          (clientIP { path := "/healthz", headers := [], remoteAddr := "198.51.100.7:2222" })).1
        = false := by
      rw [hip]
      exact Allow_same_instant_reject _ _ _ 0 (by simp [assocFind]) (by norm_num)
    rw [serveHTTP_response_rejected _ _ _ _ _ hallow]
    rfl
  · decide

/-- C7 (confirmed): when the access-log queue already holds its capacity of
10000 pending entries, serving any request leaves the queue unchanged (the
entry is silently dropped) and the response is exactly the inner pipeline's
response — the enqueue neither blocks nor errors the request path. -/
theorem C7_queue_full_drop (st : ServerState) (now : ℚ) (nowRFC : String)
    (proxyResp : HttpResponse) (r : HttpRequest)
    (hfull : accessLogCapacity ≤ st.accessQ.length) :
    ((serveHTTP st now nowRFC proxyResp r).2).accessQ = st.accessQ ∧
    (serveHTTP st now nowRFC proxyResp r).1
      = (rateLimitMiddleware st.limiter now r (muxServe nowRFC proxyResp r)).1 := by
  constructor
  · rw [serveHTTP_accessQ]
    unfold enqueueAccess
    rw [if_neg (Nat.not_lt.mpr hfull)]
  · rfl

/-- C7 witness: with the queue at exactly 10000 entries, a request's entry is
dropped and its response is untouched. -/
theorem C7_witness :
    ((serveHTTP
        { limiter := { limit := 300, rate := 30, buckets := [] }
          accessQ := List.replicate 10000 "x" }
        0 "2026-02-03T04:05:06Z" { status := 200, contentType := "", body := "hi" }
        { path := "/x", headers := [], remoteAddr := "198.51.100.7:2222" }).2).accessQ
      = List.replicate 10000 "x" ∧
    (serveHTTP
        { limiter := { limit := 300, rate := 30, buckets := [] }
          accessQ := List.replicate 10000 "x" }
        0 "2026-02-03T04:05:06Z" { status := 200, contentType := "", body := "hi" }
        { path := "/x", headers := [], remoteAddr := "198.51.100.7:2222" }).1
      = (rateLimitMiddleware { limit := 300, rate := 30, buckets := [] } 0
          { path := "/x", headers := [], remoteAddr := "198.51.100.7:2222" }
          (muxServe "2026-02-03T04:05:06Z" { status := 200, contentType := "", body := "hi" }
            { path := "/x", headers := [], remoteAddr := "198.51.100.7:2222" })).1 :=
  C7_queue_full_drop
    { limiter := { limit := 300, rate := 30, buckets := [] }
      accessQ := List.replicate 10000 "x" }
    0 "2026-02-03T04:05:06Z" { status := 200, contentType := "", body := "hi" }
    { path := "/x", headers := [], remoteAddr := "198.51.100.7:2222" }
    (by
      rw [List.length_replicate]
      exact le_refl _)

/-- C6 (confirmed): whenever a rotation is needed and it fails (directory
creation or file open returns an error), `Write` sends the bytes to standard
output and returns stdout's write result — the rotation error is not
propagated and the writer state is unchanged; the logging path returns
normally. -/
theorem C6_stdout_fallback (w : dailyFileWriter) (today : String) (p : List ℕ)
    (fs : fsOutcome) (fileRes stdoutRes : ℕ × Option String)
    (hrot : w.file = none ∨ w.currentDate ≠ today)
    (hfail : fs.mkdirErr.isSome ∨ fs.openErr.isSome) :
    w.Write today p fs fileRes stdoutRes = (writeDest.stdout p, stdoutRes, w) := by
  have herr : ∃ e, w.rotate today fs = Except.error e := by
    unfold dailyFileWriter.rotate
    cases hm : fs.mkdirErr with
    | some e => exact ⟨e, rfl⟩
    | none =>
        cases ho : fs.openErr with
        | some e => exact ⟨e, rfl⟩
        | none =>
            exfalso
            rcases hfail with h | h
            · rw [hm] at h
              simp at h
            · rw [ho] at h
              simp at h
  obtain ⟨e, he⟩ := herr
  unfold dailyFileWriter.Write
  rw [if_pos hrot, he]

/-- C6 witness: a fresh writer whose directory creation fails writes the
bytes to stdout and returns stdout's `(n, err)` result. -/
theorem C6_witness :
    (newDailyFileWriter "logs" "access").Write "2026-02-03" [104, 105]
        { mkdirErr := some "permission denied", openErr := none, newHandle := 7 }
        (2, none) (2, none)
      = (writeDest.stdout [104, 105], (2, none), newDailyFileWriter "logs" "access") :=
  C6_stdout_fallback (newDailyFileWriter "logs" "access") "2026-02-03" [104, 105]
    { mkdirErr := some "permission denied", openErr := none, newHandle := 7 }
    (2, none) (2, none) (Or.inl rfl) (Or.inl rfl)

/-- C9 counterexample: a buffer handed out by `Get` after a `Put` is the
zero-length reslice stored by `Put`, not a 32 KiB block — `Put` stores
`b[:0]`, so the reused buffer has length 0, not 32768. -/
theorem C9_counterexample :
    ((((byteBufferPool.mk []).Get).2.Put ((byteBufferPool.mk []).Get).1).Get).1.length = 0 ∧
    (0 : ℕ) ≠ 32768 :=
  ⟨rfl, by decide⟩

/-- C9 (corrected): a freshly allocated buffer from `Get` (empty pool) is a
32 KiB block, but any buffer previously returned via `Put` comes back as the
zero-length reslice `b[:0]` — on reuse the body copy receives an empty
buffer (the stdlib copy then allocates its own). -/
theorem C9_amended (p : byteBufferPool) (b : List ℕ) :
    ((byteBufferPool.mk []).Get).1.length = 32 * 1024 ∧
    (((p.Put b).Get).1).length = 0 := by
  constructor
  · show (List.replicate (32 * 1024) 0).length = 32 * 1024
    exact List.length_replicate _ _
  · show (b.take 0).length = 0
    simp
